import Mathlib

/-!
# Verification of the price-aggregation core

Shallow embedding of the multi-source price scraping and reconciliation
engine: the reconciliation writer (`app/main.py`, `save_prices_to_db`),
the gold fallback scraper manager and its priority resolver
(`app/scraper/engine.py`), the currency fallback manager
(`app/scraper/currency.py`), the gold read endpoint with manual
overrides (`app/endpoints/gold.py`), and the full-bank refresh cycle
(`app/main.py`, `run_full_bank_scrape_periodically`).

Prices are embedded as rationals (the Python code stores floats and the
claims only involve exact decimal values and comparisons), timestamps as
naturals, and database tables as lists of rows in insertion order.
-/

namespace Werete

/-- Python `str.lower()`, character by character (Python strings are
character sequences, embedded as the character list of a `String`). -/
def pyLower (s : String) : String := ⟨s.data.map Char.toLower⟩

/-- Python `str.strip()`: drop whitespace from both ends. -/
def pyStrip (s : String) : String :=
  ⟨((s.data.dropWhile Char.isWhitespace).reverse.dropWhile
      Char.isWhitespace).reverse⟩

/-- Helper for `pySplit`: accumulates the current piece reversed. -/
def pySplitAux (sep : Char) : List Char → List Char → List String
  | [], acc => [⟨acc.reverse⟩]
  | c :: cs, acc =>
      if c = sep then ⟨acc.reverse⟩ :: pySplitAux sep cs []
      else pySplitAux sep cs (c :: acc)

/-- Python `str.split(sep)` for a one-character separator. -/
def pySplit (sep : Char) (s : String) : List String := pySplitAux sep s.data []

/-- Python `or` on optional strings: a present, non-empty string wins,
otherwise the right operand is taken (`None` stays `none`). -/
def pyOrStr : Option String → Option String → Option String
  | some s, b => if s = "" then b else some s
  | none, b => b

/-- `str(p.get('karat') or p.get('currency'))` from `save_prices_to_db`:
Python renders `None` as the string `"None"`. -/
def keyOf (karat currency : Option String) : String :=
  match pyOrStr karat currency with
  | some s => s
  | none => "None"

/-- One scraped observation dict as consumed by `save_prices_to_db`.
Optional fields model `dict.get` on keys an adapter may omit. -/
structure PriceDict where
  ptype : Option String
  country : Option String
  karat : Option String
  currency : Option String
  sell_price : ℚ
  buy_price : ℚ
  source : Option String
  source_status : Option String
  timestamp : Nat
deriving DecidableEq

/-- A `UnifiedPrice` latest-snapshot row (`app/models.py`). -/
structure UnifiedPrice where
  id : Nat
  ptype : String
  country : String
  key : String
  sell_price : ℚ
  buy_price : ℚ
  currency : String
  source_name : Option String
  source_status : String
  last_update : Nat
deriving DecidableEq

/-- A `PriceHistory` append-only row (`app/models.py`). -/
structure PriceHistory where
  price_id : Nat
  ptype : String
  country : String
  key : String
  sell_price : ℚ
  buy_price : ℚ
  source_name : Option String
  timestamp : Nat
deriving DecidableEq

/-- A `BankCurrencyRate` row (`app/models.py`), fields restricted to the
ones the claims mention. -/
structure BankCurrencyRate where
  bank_name : String
  from_currency : String
  to_currency : String
  buy_price : ℚ
  sell_price : ℚ
  timestamp : Nat
deriving DecidableEq

/-- The relational store: `settings` (key/value rows), the `UnifiedPrice`
latest-snapshot table, the `PriceHistory` table, the `BankCurrencyRate`
table, and the autoincrement counter for `UnifiedPrice.id`. -/
structure DB where
  settings : List (String × String)
  unified : List UnifiedPrice
  history : List PriceHistory
  bankRates : List BankCurrencyRate
  nextId : Nat
deriving DecidableEq

/-- A SQLAlchemy session: `durable` is what previous `db.commit()` calls
made permanent, `mem` is the in-session state including uncommitted
mutations (flushed or not). -/
structure Session where
  durable : DB
  mem : DB
deriving DecidableEq

/-- `Setting` lookup by primary key (first row with the key). -/
def getSetting (db : DB) (k : String) : Option String :=
  (db.settings.find? (fun kv => decide (kv.1 = k))).map (·.2)

/-- Normalized type of an observation: `p.get('type', 'gold').lower()`. -/
def obsPType (p : PriceDict) : String := pyLower (p.ptype.getD "gold")

/-- Normalized country: `p.get('country', 'egypt').lower()`. -/
def obsCountry (p : PriceDict) : String := pyLower (p.country.getD "egypt")

/-- Effective instrument key: `str(p.get('karat') or p.get('currency'))`. -/
def obsEffKey (p : PriceDict) : String := keyOf p.karat p.currency

/-- The snapshot key `(type, country, key)` an observation is filed under. -/
def obsTriple (p : PriceDict) : String × String × String :=
  (obsPType p, obsCountry p, obsEffKey p)

/-- The `(type, country, key)` triple of a snapshot row. -/
def rowTriple (u : UnifiedPrice) : String × String × String :=
  (u.ptype, u.country, u.key)

/-- First snapshot row matching a triple, as
`db.query(UnifiedPrice).filter(type==…, country==…, key==…).first()`. -/
def findRowL (l : List UnifiedPrice) (k : String × String × String) :
    Option UnifiedPrice :=
  l.find? (fun u => decide (rowTriple u = k))

/-- Replace the first element satisfying the predicate, in place. -/
def updateFirst (p : α → Bool) (f : α → α) : List α → List α
  | [] => []
  | a :: as => if p a then f a :: as else a :: updateFirst p f as

/-- The `PriceHistory` row `save_prices_to_db` inserts for an observation. -/
def mkHistOf (now : Nat) (pid : Nat) (p : PriceDict) : PriceHistory :=
  { price_id := pid
    ptype := obsPType p
    country := obsCountry p
    key := obsEffKey p
    sell_price := p.sell_price
    buy_price := p.buy_price
    source_name := p.source
    timestamp := now }

/-- The in-place field assignments `save_prices_to_db` performs on an
existing `UnifiedPrice` row for an observation. -/
def updRow (now : Nat) (p : PriceDict) (u0 : UnifiedPrice) : UnifiedPrice :=
  { u0 with
    sell_price := p.sell_price
    buy_price := p.buy_price
    currency := p.currency.getD "EGP"
    source_name := p.source
    source_status := p.source_status.getD "Fallback"
    last_update := now }

/-- The fresh `UnifiedPrice` row `save_prices_to_db` inserts for an
observation with no existing snapshot row (`db.flush()` assigns the id). -/
def newRow (now : Nat) (pid : Nat) (p : PriceDict) : UnifiedPrice :=
  { id := pid
    ptype := obsPType p
    country := obsCountry p
    key := obsEffKey p
    sell_price := p.sell_price
    buy_price := p.buy_price
    currency := p.currency.getD "EGP"
    source_name := p.source
    source_status := p.source_status.getD "Fallback"
    last_update := now }

/-- The body of the `for p in prices_data` loop of `save_prices_to_db`
(`app/main.py`): skip observations with an empty key; update the first
matching snapshot row in place (or insert a new one) and append a
`PriceHistory` row exactly when the row was new or
`sell_price`/`buy_price` changed. All mutations happen on the session
state; durability comes from the final commit. -/
def savePricesStep (now : Nat) (db : DB) (p : PriceDict) : DB :=
  if obsEffKey p = "" then db
  else
    match findRowL db.unified (obsTriple p) with
    | some u =>
        let changed : Bool :=
          decide (u.sell_price ≠ p.sell_price ∨ u.buy_price ≠ p.buy_price)
        let unified' : List UnifiedPrice :=
          updateFirst (fun u0 => decide (rowTriple u0 = obsTriple p))
            (updRow now p) db.unified
        let db' : DB := { db with unified := unified' }
        if changed then
          { db' with history := db'.history ++ [mkHistOf now u.id p] }
        else db'
    | none =>
        { db with
          unified := db.unified ++ [newRow now db.nextId p]
          nextId := db.nextId + 1
          history := db.history ++ [mkHistOf now db.nextId p] }

/-- The whole loop of `save_prices_to_db` over the session state. -/
def saveLoop (now : Nat) (db : DB) (obs : List PriceDict) : DB :=
  obs.foldl (savePricesStep now) db

/-- `save_prices_to_db(db, prices_data)`: early-return on an empty batch,
otherwise run the loop on the session and make the result durable with
the single final `db.commit()`. -/
def save_prices_to_db (now : Nat) (s : Session) (obs : List PriceDict) :
    Session :=
  if obs = [] then s
  else
    let m := saveLoop now s.mem obs
    { durable := m, mem := m }

/-- A run of `save_prices_to_db` interrupted by a failure after `k`
observations, before the final `db.commit()` line is reached: the
session's in-memory state holds partial mutations, but nothing was
committed (the caller's `finally: db.close()` discards the open
transaction). -/
def savePricesInterrupted (now : Nat) (s : Session) (obs : List PriceDict)
    (k : Nat) : Session :=
  { s with mem := saveLoop now s.mem (obs.take k) }

/-! ## Gold fallback scraper manager (`app/scraper/engine.py`) -/

/-- One adapter in one cycle: its registered name together with the list
of observations its `fetch_prices()` returned this cycle (adapters never
raise; a failed fetch is an empty list). -/
structure SourceRun where
  name : String
  result : List PriceDict
deriving DecidableEq

/-- `[p for p in prices if p['sell_price'] > 0]` from
`ScraperManager.get_latest_prices`. -/
def validOf (s : SourceRun) : List PriceDict :=
  s.result.filter (fun p => decide (0 < p.sell_price))

/-- Metadata stamping of a winning observation: `source_status`, shared
commit timestamp. -/
def tagObs (st : String) (now : Nat) (p : PriceDict) : PriceDict :=
  { p with source_status := some st, timestamp := now }

/-- The `for index, source in enumerate(sources)` loop of
`ScraperManager.get_latest_prices`: accept the first adapter whose
filtered (sell > 0) result is non-empty, stamp it `Primary` when it was
the adapter at index 0, `Fallback` otherwise, and stop; return the empty
list when every adapter fails. -/
def getLatestPricesAux (now : Nat) : Nat → List SourceRun → List PriceDict
  | _, [] => []
  | idx, s :: rest =>
      if validOf s ≠ [] then
        (validOf s).map (tagObs (if idx = 0 then "Primary" else "Fallback") now)
      else getLatestPricesAux now (idx + 1) rest

/-- `ScraperManager.get_latest_prices` over the resolved adapter order. -/
def getLatestPrices (now : Nat) (sources : List SourceRun) : List PriceDict :=
  getLatestPricesAux now 0 sources

/-- Spec-side restatement of the fallback algorithm (§4.3 of the spec):
iterate in order, accept the first adapter whose result contains at
least one observation with `sell_price > 0`, tag it `Primary` when it is
the first adapter and `Fallback` otherwise, return its valid
observations, and return nothing when no adapter qualifies. Stated from
the spec's words, to be compared with `getLatestPrices`. -/
def managerSpecAux (now : Nat) : Bool → List SourceRun → List PriceDict
  | _, [] => []
  | isFirst, s :: rest =>
      if _ : ∃ p ∈ s.result, 0 < p.sell_price then
        (s.result.filter (fun p => decide (0 < p.sell_price))).map
          (tagObs (if isFirst then "Primary" else "Fallback") now)
      else managerSpecAux now false rest

/-- Spec-side fallback manager, started with the first-adapter flag set. -/
def managerSpec (now : Nat) (sources : List SourceRun) : List PriceDict :=
  managerSpecAux now true sources

/-- One tick of `run_scraper_periodically` (`app/main.py`): run the
manager and invoke the writer only when it produced observations. -/
def runGoldCycle (now : Nat) (s : Session) (sources : List SourceRun) :
    Session :=
  let prices := getLatestPrices now sources
  if prices = [] then s else save_prices_to_db now s prices

/-! ## Priority resolver (`ScraperManager._get_ordered_sources`) -/

/-- `ScraperManager.default_order`; the keys of `all_sources` are the
same five names. -/
def goldDefaultOrder : List String :=
  ["GoldEra", "GoldBullion", "EgyptGoldPriceToday", "GoldPriceLive",
   "SouqPriceToday"]

/-- `[s.strip() for s in setting.value.split(",") if s.strip()]`. -/
def parseSourceOrder (v : String) : List String :=
  ((pySplit ',' v).map pyStrip).filter (fun s => decide (s ≠ ""))

/-- The persisted names kept by the resolver: those registered in
`all_sources` (whose keys are the `goldDefaultOrder` names). -/
def resolverPick (s : String) : List String :=
  (parseSourceOrder s).filter (fun n => decide (n ∈ goldDefaultOrder))

/-- `ScraperManager._get_ordered_sources`, with the persisted
`gold_source_order` Setting value passed in (`none` when the row is
absent) and `readErr` modelling an exception while reading it: keep the
persisted names that are registered adapters, append the registered
adapters missing from the persisted order, and fall back to the default
order when the setting is absent, empty or unreadable. -/
def getOrderedSources (readErr : Bool) (v : Option String) : List String :=
  if readErr then goldDefaultOrder
  else
    match v with
    | some s =>
        if s ≠ "" then
          resolverPick s ++
            goldDefaultOrder.filter (fun n => decide (n ∉ resolverPick s))
        else goldDefaultOrder
    | none => goldDefaultOrder

/-! ## Source adapters (`app/scraper/engine.py`)

HTML retrieval and cell cleaning are abstracted: an adapter's parsed
table is a list of `AdapterRow`s, where `matched` is the adapter's raw
text guard on the key cell (e.g. `"عيار" in karat_text`), `karat` is the
`_clean_karat` output, and `v1`/`v2` are the `_clean_price` outputs of
the two value cells the adapter reads. A fetch outcome is either a
parsed table or the text of the exception raised during fetch/parse. -/

structure AdapterRow where
  matched : Bool
  karat : String
  v1 : ℚ
  v2 : ℚ
deriving DecidableEq

/-- Mutable per-adapter diagnostic state (`ScraperSource.last_error`). -/
structure SourceSt where
  last_error : Option String
deriving DecidableEq

/-- The observation dict a local gold adapter appends. -/
def obsOf (src : String) (karat : String) (sell buy : ℚ) : PriceDict :=
  { ptype := some "Local"
    country := none
    karat := some karat
    currency := some "EGP"
    sell_price := sell
    buy_price := buy
    source := some src
    source_status := none
    timestamp := 0 }

/-- `GoldEraSource` row handling: karat marker guard, sell from column 1,
buy from column 2, kept only when sell > 0. -/
def goldEraParse (rows : List AdapterRow) : List PriceDict :=
  rows.filterMap (fun r =>
    if r.matched ∧ 0 < r.v1 then some (obsOf "GoldEra" r.karat r.v1 r.v2)
    else none)

/-- `GoldEraSource.fetch_prices`: on failure, record the error in
`last_error` and return the empty list. -/
def goldEraFetch (out : Except String (List AdapterRow)) (st : SourceSt) :
    List PriceDict × SourceSt :=
  match out with
  | .ok rows => (goldEraParse rows, st)
  | .error e => ([], { last_error := some e })

/-- `IsaghaSource` row handling (sell column 1, buy column 3). -/
def isaghaParse (rows : List AdapterRow) : List PriceDict :=
  rows.filterMap (fun r =>
    if r.matched ∧ 0 < r.v1 then some (obsOf "Isagha" r.karat r.v1 r.v2)
    else none)

/-- `IsaghaSource.fetch_prices`: records `last_error` on failure. -/
def isaghaFetch (out : Except String (List AdapterRow)) (st : SourceSt) :
    List PriceDict × SourceSt :=
  match out with
  | .ok rows => (isaghaParse rows, st)
  | .error e => ([], { last_error := some e })

/-- `GoldBullionSource` row handling: rows appended unconditionally with
`sell = max, buy = min` of the two values. -/
def goldBullionParse (rows : List AdapterRow) : List PriceDict :=
  rows.filterMap (fun r =>
    if r.matched then
      some (obsOf "GoldBullion" r.karat (max r.v1 r.v2) (min r.v1 r.v2))
    else none)

/-- `GoldBullionSource.fetch_prices`: records `last_error` on failure. -/
def goldBullionFetch (out : Except String (List AdapterRow)) (st : SourceSt) :
    List PriceDict × SourceSt :=
  match out with
  | .ok rows => (goldBullionParse rows, st)
  | .error e => ([], { last_error := some e })

/-- `EgyptGoldPriceTodaySource` row handling: non-empty cleaned karat and
the `if val1 > 500` sanity band; `sell = max, buy = min`. -/
def egyptRowObs (r : AdapterRow) : Option PriceDict :=
  if r.karat ≠ "" ∧ 500 < r.v1 then
    some (obsOf "EgyptGoldPriceToday" r.karat (max r.v1 r.v2) (min r.v1 r.v2))
  else none

/-- `EgyptGoldPriceTodaySource` table traversal. -/
def egyptGoldParse (rows : List AdapterRow) : List PriceDict :=
  rows.filterMap egyptRowObs

/-- `EgyptGoldPriceTodaySource.fetch_prices`: its `except` clause only
logs — `last_error` is left untouched — and returns the empty list. -/
def egyptGoldFetch (out : Except String (List AdapterRow)) (st : SourceSt) :
    List PriceDict × SourceSt :=
  match out with
  | .ok rows => (egyptGoldParse rows, st)
  | .error _ => ([], st)

/-- `SouqPriceTodaySource` row handling (rows of the second table):
raw-text guard, non-empty karat and `sell < 15000`. -/
def souqParse (rows : List AdapterRow) : List PriceDict :=
  rows.filterMap (fun r =>
    if r.matched then
      if r.karat ≠ "" ∧ max r.v1 r.v2 < 15000 then
        some (obsOf "SouqPriceToday" r.karat (max r.v1 r.v2) (min r.v1 r.v2))
      else none
    else none)

/-- `SouqPriceTodaySource.fetch_prices`: only logs on failure. -/
def souqFetch (out : Except String (List AdapterRow)) (st : SourceSt) :
    List PriceDict × SourceSt :=
  match out with
  | .ok rows => (souqParse rows, st)
  | .error _ => ([], st)

/-- A card on the GoldPriceLive page: cleaned karat of the card text and
the numbers found in the card's price text. -/
structure GPLCard where
  karat : String
  nums : List ℚ
deriving DecidableEq

/-- `GoldPriceLiveSource` card handling: keep numbers in (500, 15000),
need at least two, `sell = max, buy = min`, reject when sell ≥ 20000. -/
def gplFromCards (cards : List GPLCard) : List PriceDict :=
  cards.filterMap (fun c =>
    if c.karat = "" then none
    else
      let pot := c.nums.filter (fun n => decide (500 < n ∧ n < 15000))
      if 2 ≤ pot.length then
        let sell := pot.foldl max 0
        let buy := pot.foldl min sell
        if sell < 20000 then some (obsOf "GoldPriceLive" c.karat sell buy)
        else none
      else none)

/-- `GoldPriceLiveSource` table fallback rows: both values must lie in
(500, 15000). -/
def gplFromRows (rows : List AdapterRow) : List PriceDict :=
  rows.filterMap (fun r =>
    if r.karat ≠ "" ∧ (500 < r.v1 ∧ r.v1 < 15000) ∧
        (500 < r.v2 ∧ r.v2 < 15000) then
      some (obsOf "GoldPriceLive" r.karat (max r.v1 r.v2) (min r.v1 r.v2))
    else none)

/-- `{p['karat']: p for p in prices}.values()`: per-karat de-duplication,
last value wins, first-insertion order kept. -/
def dedupByKarat (l : List PriceDict) : List PriceDict :=
  l.foldl (fun acc p =>
    if acc.any (fun q => decide (q.karat = p.karat)) then
      acc.map (fun q => if q.karat = p.karat then p else q)
    else acc ++ [p]) []

/-- `GoldPriceLiveSource` parsing: cards first, table rows only when the
cards produced nothing, then de-duplication by karat. -/
def goldPriceLiveParse (cards : List GPLCard) (rows : List AdapterRow) :
    List PriceDict :=
  let ps := gplFromCards cards
  dedupByKarat (if ps = [] then gplFromRows rows else ps)

/-- `GoldPriceLiveSource.fetch_prices`: only logs on failure. -/
def goldPriceLiveFetch (out : Except String (List GPLCard × List AdapterRow))
    (st : SourceSt) : List PriceDict × SourceSt :=
  match out with
  | .ok doc => (goldPriceLiveParse doc.1 doc.2, st)
  | .error _ => ([], st)

/-! ## Currency fallback manager (`app/scraper/currency.py`) -/

/-- One rate dict produced by a currency bank source. -/
structure RateDict where
  currency : String
  buy_price : ℚ
  sell_price : ℚ
  source : String
  source_status : Option String
deriving DecidableEq

/-- Status stamping of a winning bank's rates. -/
def tagRate (st : String) (r : RateDict) : RateDict :=
  { r with source_status := some st }

/-- The keys of `CurrencyScraperManager.sources_map`; every entry carries
both banks (`nbe` and `bdc`). This list is also the default enabled
order returned by `_get_enabled_sources_in_order`. -/
def currencyKnownIds : List String := ["ta3weem", "egrates", "banklive"]

/-- The inner `for source_id in enabled_source_ids` loop of
`CurrencyScraperManager.get_latest_rates` for one bank: skip ids missing
from `sources_map`, fetch, accept the first non-empty result, stamping
`Primary` exactly when the winning id equals the head of the full
enabled list. `fetch sid bank` is the rate list that source returns for
that bank this cycle. -/
def bankRatesAux (fetch : String → String → List RateDict) (bank : String)
    (headId : Option String) : List String → List RateDict
  | [] => []
  | sid :: rest =>
      if sid ∈ currencyKnownIds then
        if fetch sid bank ≠ [] then
          (fetch sid bank).map (tagRate (if headId = some sid then "Primary"
            else "Fallback"))
        else bankRatesAux fetch bank headId rest
      else bankRatesAux fetch bank headId rest

/-- The per-bank fallback pass over the enabled source order. -/
def bankRatesFor (enabled : List String)
    (fetch : String → String → List RateDict) (bank : String) :
    List RateDict :=
  bankRatesAux fetch bank enabled.head? enabled

/-- `CurrencyScraperManager.get_latest_rates`: the per-bank passes for
`nbe` and `bdc`, concatenated. -/
def getLatestRates (enabled : List String)
    (fetch : String → String → List RateDict) : List RateDict :=
  bankRatesFor enabled fetch "nbe" ++ bankRatesFor enabled fetch "bdc"

/-! ## Full-bank refresh cycle (`run_full_bank_scrape_periodically`) -/

/-- One rate dict from `AllBanksScraperManager`. -/
structure BankRateDict where
  bank_name : String
  currency : String
  buy_price : ℚ
  sell_price : ℚ
deriving DecidableEq

/-- The `BankCurrencyRate` row built for one scraped bank rate. -/
def mkBankRow (now : Nat) (r : BankRateDict) : BankCurrencyRate :=
  { bank_name := r.bank_name
    from_currency := r.currency
    to_currency := "EGP"
    buy_price := r.buy_price
    sell_price := r.sell_price
    timestamp := now }

/-- The database mutation of one successful tick of
`run_full_bank_scrape_periodically`: when the scrape produced results,
`db.query(BankCurrencyRate).delete()` empties the table and the scraped
rows are inserted; with no results nothing is touched. -/
def fullBankCycleApply (now : Nat) (db : DB) (results : List BankRateDict) :
    DB :=
  if results = [] then db
  else { db with bankRates := results.map (mkBankRow now) }

/-! ## Gold read endpoint (`app/endpoints/gold.py`, `read_current_prices`) -/

/-- Digits-only parse of a character list (fails on empty input or any
non-digit). -/
def parseDigits : List Char → Option Nat
  | [] => none
  | cs => cs.foldl (fun acc c =>
      acc.bind (fun n =>
        if c.isDigit then some (n * 10 + (c.toNat - 48)) else none))
      (some 0)

/-- Python `float()` on the decimal literals that occur as persisted
setting values: optional sign, digits with an optional fractional part,
surrounding whitespace. Other accepted Python spellings (exponents,
`inf`, underscores) do not occur in this code's data and are rejected. -/
def pyFloat (s : String) : Option ℚ :=
  let t := (pyStrip s).data
  let core : List Char × Bool :=
    match t with
    | '-' :: rest => (rest, true)
    | '+' :: rest => (rest, false)
    | _ => (t, false)
  let q : Option ℚ :=
    match pySplitAux '.' core.1 [] with
    | [a] => (parseDigits a.data).map (fun n => (n : ℚ))
    | [a, b] =>
        if a.data = [] ∧ b.data = [] then none
        else if a.data = [] then
          (parseDigits b.data).map (fun n => (n : ℚ) / (10 : ℚ) ^ b.length)
        else if b.data = [] then (parseDigits a.data).map (fun n => (n : ℚ))
        else
          (parseDigits a.data).bind (fun x =>
            (parseDigits b.data).map (fun y =>
              (x : ℚ) + (y : ℚ) / (10 : ℚ) ^ b.length))
    | _ => none
  q.map (fun x => if core.2 then -x else x)

/-- One row of the endpoint's response (the fields the claims mention). -/
structure GoldOut where
  karat : String
  sell_price : ℚ
  buy_price : ℚ
  source_status : String
deriving DecidableEq

/-- The snapshot rows the endpoint reads:
`type in ("gold", "local") and country == "egypt"`. -/
def goldRows (db : DB) : List UnifiedPrice :=
  db.unified.filter (fun u =>
    decide ((u.ptype = "gold" ∨ u.ptype = "local") ∧ u.country = "egypt"))

/-- `settings.get("price_offset", "0") or "0"`. -/
def offsetRaw (db : DB) : String :=
  let r := (getSetting db "price_offset").getD "0"
  if r = "" then "0" else r

/-- The per-row response assembly of `read_current_prices`: a present,
non-empty, parseable `manual_price_<key>` setting overrides both prices
and forces status `Manual`; otherwise the offset is added. -/
def readEntry (db : DB) (off : ℚ) (u : UnifiedPrice) : GoldOut :=
  match getSetting db ("manual_price_" ++ u.key) with
  | some v =>
      if v ≠ "" then
        match pyFloat v with
        | some m =>
            { karat := u.key, sell_price := m, buy_price := m,
              source_status := "Manual" }
        | none =>
            { karat := u.key, sell_price := u.sell_price + off,
              buy_price := u.buy_price + off, source_status := u.source_status }
      else
        { karat := u.key, sell_price := u.sell_price + off,
          buy_price := u.buy_price + off, source_status := u.source_status }
  | none =>
      { karat := u.key, sell_price := u.sell_price + off,
        buy_price := u.buy_price + off, source_status := u.source_status }

/-- `read_current_prices`: empty result for an empty snapshot selection;
otherwise parse the offset (an unparsable `price_offset` raises out of
the endpoint, modelled as `error`) and assemble one entry per row. -/
def readCurrentPrices (db : DB) : Except String (List GoldOut) :=
  let rows := goldRows db
  if rows = [] then .ok []
  else
    match pyFloat (offsetRaw db) with
    | none => .error "could not convert string to float"
    | some off => .ok (rows.map (readEntry db off))

/-! ## Concrete instances used to exercise the definitions -/

/-- A fresh store (autoincrement ids start at 1). -/
def emptyDB : DB :=
  { settings := [], unified := [], history := [], bankRates := [], nextId := 1 }

/-- A fresh session over a fresh store. -/
def emptySession : Session := { durable := emptyDB, mem := emptyDB }

/-- Snapshot row for karat 21 as left by a manual override: operator set
4500, `update_manual_price` wrote it through with status `Manual`. -/
def ovRow : UnifiedPrice :=
  { id := 1, ptype := "gold", country := "egypt", key := "21",
    sell_price := 4500, buy_price := 4500, currency := "EGP",
    source_name := some "Manual", source_status := "Manual", last_update := 0 }

/-- Store with an active manual override for karat 21: the Setting row
`manual_price_21 = "4500"` plus the written-through snapshot row. -/
def ovDB : DB :=
  { settings := [("manual_price_21", "4500")], unified := [ovRow],
    history := [], bankRates := [], nextId := 2 }

/-- A scraped observation for the overridden key `(gold, egypt, 21)`. -/
def ovObs : PriceDict :=
  { ptype := some "gold", country := some "egypt", karat := some "21",
    currency := some "EGP", sell_price := 4600, buy_price := 4550,
    source := some "GoldEra", source_status := some "Primary",
    timestamp := 0 }

/-- Observation for karat 21, sell 100 / buy 99. -/
def obs21 : PriceDict :=
  { ptype := none, country := none, karat := some "21", currency := none,
    sell_price := 100, buy_price := 99, source := some "GoldEra",
    source_status := some "Primary", timestamp := 0 }

/-- Observation for karat 18, sell 200 / buy 199. -/
def obs18 : PriceDict :=
  { ptype := none, country := none, karat := some "18", currency := none,
    sell_price := 200, buy_price := 199, source := some "GoldEra",
    source_status := some "Primary", timestamp := 0 }

/-- A two-karat batch with distinct keys. -/
def twoObsBatch : List PriceDict := [obs21, obs18]

/-- An adapter result whose only observation is invalid (sell 0). -/
def invalidRun : SourceRun :=
  ⟨"A", [{ ptype := none, country := none, karat := some "21",
           currency := none, sell_price := 0, buy_price := 0,
           source := some "A", source_status := none, timestamp := 0 }]⟩

/-- Priority-1 adapter returning nothing. -/
def runA : SourceRun := ⟨"A", []⟩

/-- The observation adapter B returns: karat 21, 4500/4450. -/
def obsB : PriceDict :=
  { ptype := none, country := none, karat := some "21", currency := none,
    sell_price := 4500, buy_price := 4450, source := some "B",
    source_status := none, timestamp := 0 }

/-- Priority-2 adapter returning the karat-21 quote. -/
def runB : SourceRun := ⟨"B", [obsB]⟩

/-- The end-to-end scenario's adapter order: A first, B second. -/
def scenarioSources : List SourceRun := [runA, runB]

/-- Parsed rows for `EgyptGoldPriceToday`: one out-of-band row
(sell 3) and one valid row (5000/4900), same table. -/
def bandRows : List AdapterRow :=
  [⟨true, "21", 3, 2⟩, ⟨true, "24", 5000, 4900⟩]

/-- The adapter run carrying the parse of `bandRows`. -/
def bandRun : SourceRun := ⟨"EgyptGoldPriceToday", egyptGoldParse bandRows⟩

/-- A pre-existing aggregated bank rate row. -/
def hsbcRow : BankCurrencyRate :=
  { bank_name := "HSBC", from_currency := "USD", to_currency := "EGP",
    buy_price := 47, sell_price := 48, timestamp := 0 }

/-- Store holding one aggregated bank rate row and one snapshot row. -/
def bankDB : DB :=
  { settings := [], unified := [ovRow], history := [], bankRates := [hsbcRow],
    nextId := 2 }

/-- A scraped bank rate for a different bank and currency. -/
def cibResult : BankRateDict :=
  { bank_name := "CIB", currency := "EUR", buy_price := 50, sell_price := 51 }

/-- Rate returned by `ta3weem` for bank `nbe` in the mixing scenario. -/
def nbeRate : RateDict :=
  { currency := "USD", buy_price := 47, sell_price := 48,
    source := "Ta3weem_nbe", source_status := none }

/-- Rate returned by `egrates` for bank `bdc` in the mixing scenario. -/
def bdcRate : RateDict :=
  { currency := "USD", buy_price := 46, sell_price := 47,
    source := "Egrates_bdc", source_status := none }

/-- Fetch outcomes where `ta3weem` only serves `nbe` and `egrates` only
serves `bdc`. -/
def mixFetch (sid bank : String) : List RateDict :=
  if sid = "ta3weem" ∧ bank = "nbe" then [nbeRate]
  else if sid = "egrates" ∧ bank = "bdc" then [bdcRate]
  else []

/-! ## Basic lemmas about row lookup and in-place update -/

lemma rowTriple_updRow (now : Nat) (p : PriceDict) (u0 : UnifiedPrice) :
    rowTriple (updRow now p u0) = rowTriple u0 := rfl

lemma rowTriple_newRow (now pid : Nat) (p : PriceDict) :
    rowTriple (newRow now pid p) = obsTriple p := rfl

lemma findRowL_cons (u : UnifiedPrice) (l : List UnifiedPrice)
    (k : String × String × String) :
    findRowL (u :: l) k = if rowTriple u = k then some u else findRowL l k := by
  simp only [findRowL, List.find?]
  by_cases h : rowTriple u = k <;> simp [h]

lemma findRowL_append_of_some {l₁ : List UnifiedPrice} {k} {u : UnifiedPrice}
    (l₂ : List UnifiedPrice) (h : findRowL l₁ k = some u) :
    findRowL (l₁ ++ l₂) k = some u := by
  induction l₁ with
  | nil => simp [findRowL] at h
  | cons a l ih =>
    rw [List.cons_append, findRowL_cons]
    rw [findRowL_cons] at h
    by_cases ha : rowTriple a = k
    · simpa [ha] using h
    · simp only [ha, if_false] at h ⊢
      exact ih h

lemma findRowL_append_of_none {l₁ : List UnifiedPrice} {k}
    (l₂ : List UnifiedPrice) (h : findRowL l₁ k = none) :
    findRowL (l₁ ++ l₂) k = findRowL l₂ k := by
  induction l₁ with
  | nil => rfl
  | cons a l ih =>
    rw [List.cons_append, findRowL_cons]
    rw [findRowL_cons] at h
    by_cases ha : rowTriple a = k
    · simp [ha] at h
    · simp only [ha, if_false] at h ⊢
      exact ih h

lemma findRowL_append_single_ne {v : UnifiedPrice} {k}
    (l : List UnifiedPrice) (h : rowTriple v ≠ k) :
    findRowL (l ++ [v]) k = findRowL l k := by
  cases hl : findRowL l k with
  | some u => exact findRowL_append_of_some _ hl
  | none =>
    rw [findRowL_append_of_none _ hl, findRowL_cons]
    simp [h, findRowL]

lemma findRowL_updateFirst_ne {k k' : String × String × String}
    (f : UnifiedPrice → UnifiedPrice) (l : List UnifiedPrice)
    (hf : ∀ u, rowTriple (f u) = rowTriple u) (hne : k ≠ k') :
    findRowL (updateFirst (fun u => decide (rowTriple u = k')) f l) k
      = findRowL l k := by
  induction l with
  | nil => rfl
  | cons a l ih =>
    simp only [updateFirst]
    by_cases h : rowTriple a = k'
    · rw [if_pos (by simp [h])]
      rw [findRowL_cons, findRowL_cons, hf a, h,
        if_neg (Ne.symm hne), if_neg (Ne.symm hne)]
    · rw [if_neg (by simp [h])]
      rw [findRowL_cons, findRowL_cons, ih]

lemma findRowL_updateFirst_self {k : String × String × String}
    (f : UnifiedPrice → UnifiedPrice) (l : List UnifiedPrice)
    (hf : ∀ u, rowTriple (f u) = rowTriple u) :
    findRowL (updateFirst (fun u => decide (rowTriple u = k)) f l) k
      = (findRowL l k).map f := by
  induction l with
  | nil => rfl
  | cons a l ih =>
    simp only [updateFirst]
    by_cases h : rowTriple a = k
    · rw [if_pos (by simp [h])]
      rw [findRowL_cons, findRowL_cons]
      simp [hf a, h]
    · rw [if_neg (by simp [h])]
      rw [findRowL_cons, findRowL_cons, ih]
      simp [h]

lemma mem_triple_updateFirst (f : UnifiedPrice → UnifiedPrice)
    (q : UnifiedPrice → Bool) {l : List UnifiedPrice} {u : UnifiedPrice}
    (hf : ∀ v, rowTriple (f v) = rowTriple v) (hu : u ∈ l) :
    ∃ u', u' ∈ updateFirst q f l ∧ rowTriple u' = rowTriple u := by
  induction l with
  | nil => cases hu
  | cons a l ih =>
    simp only [updateFirst]
    by_cases h : q a = true
    · simp only [h, if_true]
      rcases List.mem_cons.mp hu with rfl | hmem
      · exact ⟨f u, List.mem_cons_self _ _, hf u⟩
      · exact ⟨u, List.mem_cons_of_mem _ hmem, rfl⟩
    · simp only [h, if_false]
      rcases List.mem_cons.mp hu with rfl | hmem
      · exact ⟨u, List.mem_cons_self _ _, rfl⟩
      · obtain ⟨u', hu', he⟩ := ih hmem
        exact ⟨u', List.mem_cons_of_mem _ hu', he⟩

/-! ## Behaviour of one writer step -/

lemma savePricesStep_skip {p : PriceDict} (now : Nat) (db : DB)
    (h : obsEffKey p = "") : savePricesStep now db p = db := by
  simp [savePricesStep, h]

lemma savePricesStep_same_vals {p : PriceDict} {db : DB} {u : UnifiedPrice}
    (now : Nat) (hk : obsEffKey p ≠ "")
    (hfind : findRowL db.unified (obsTriple p) = some u)
    (hs : u.sell_price = p.sell_price) (hb : u.buy_price = p.buy_price) :
    savePricesStep now db p =
      { db with
        unified := updateFirst (fun u0 => decide (rowTriple u0 = obsTriple p))
          (updRow now p) db.unified } := by
  have hch : decide (u.sell_price ≠ p.sell_price ∨ u.buy_price ≠ p.buy_price)
      = false := by simp [hs, hb]
  simp [savePricesStep, hk, hfind, hch]

lemma savePricesStep_changed {p : PriceDict} {db : DB} {u : UnifiedPrice}
    (now : Nat) (hk : obsEffKey p ≠ "")
    (hfind : findRowL db.unified (obsTriple p) = some u)
    (hch : u.sell_price ≠ p.sell_price ∨ u.buy_price ≠ p.buy_price) :
    savePricesStep now db p =
      { db with
        unified := updateFirst (fun u0 => decide (rowTriple u0 = obsTriple p))
          (updRow now p) db.unified
        history := db.history ++ [mkHistOf now u.id p] } := by
  have hch' : decide (u.sell_price ≠ p.sell_price ∨ u.buy_price ≠ p.buy_price)
      = true := by simpa using hch
  simp [savePricesStep, hk, hfind, hch']

lemma savePricesStep_new {p : PriceDict} {db : DB} (now : Nat)
    (hk : obsEffKey p ≠ "")
    (hfind : findRowL db.unified (obsTriple p) = none) :
    savePricesStep now db p =
      { db with
        unified := db.unified ++ [newRow now db.nextId p]
        nextId := db.nextId + 1
        history := db.history ++ [mkHistOf now db.nextId p] } := by
  simp [savePricesStep, hk, hfind]

/-- After processing an observation with a non-empty key, the first
matching snapshot row carries the observation's prices. -/
lemma savePricesStep_establishes {p : PriceDict} (db : DB) (now : Nat)
    (hk : obsEffKey p ≠ "") :
    ∃ u, findRowL (savePricesStep now db p).unified (obsTriple p) = some u ∧
      u.sell_price = p.sell_price ∧ u.buy_price = p.buy_price := by
  cases hfind : findRowL db.unified (obsTriple p) with
  | some u =>
    have hup : findRowL
        (updateFirst (fun u0 => decide (rowTriple u0 = obsTriple p))
          (updRow now p) db.unified) (obsTriple p)
        = some (updRow now p u) := by
      rw [findRowL_updateFirst_self _ _ (rowTriple_updRow now p), hfind]
      rfl
    by_cases hch : u.sell_price ≠ p.sell_price ∨ u.buy_price ≠ p.buy_price
    · rw [savePricesStep_changed now hk hfind hch]
      exact ⟨updRow now p u, hup, rfl, rfl⟩
    · push_neg at hch
      rw [savePricesStep_same_vals now hk hfind hch.1 hch.2]
      exact ⟨updRow now p u, hup, rfl, rfl⟩
  | none =>
    rw [savePricesStep_new now hk hfind]
    refine ⟨newRow now db.nextId p, ?_, rfl, rfl⟩
    rw [findRowL_append_of_none _ hfind, findRowL_cons,
      if_pos (rowTriple_newRow now db.nextId p)]

/-- A writer step leaves the lookup of every other snapshot key unchanged. -/
lemma savePricesStep_other {p : PriceDict} {db : DB}
    {k : String × String × String} (now : Nat) (hne : obsTriple p ≠ k) :
    findRowL (savePricesStep now db p).unified k = findRowL db.unified k := by
  by_cases hk : obsEffKey p = ""
  · rw [savePricesStep_skip now db hk]
  cases hfind : findRowL db.unified (obsTriple p) with
  | some u =>
    have hup : findRowL
        (updateFirst (fun u0 => decide (rowTriple u0 = obsTriple p))
          (updRow now p) db.unified) k = findRowL db.unified k :=
      findRowL_updateFirst_ne _ _ (rowTriple_updRow now p) (Ne.symm hne)
    by_cases hch : u.sell_price ≠ p.sell_price ∨ u.buy_price ≠ p.buy_price
    · rw [savePricesStep_changed now hk hfind hch]; exact hup
    · push_neg at hch
      rw [savePricesStep_same_vals now hk hfind hch.1 hch.2]; exact hup
  | none =>
    rw [savePricesStep_new now hk hfind]
    exact findRowL_append_single_ne _ (by rw [rowTriple_newRow]; exact hne)

/-- History grows by one entry exactly when the key was new or its stored
prices differ from the observation. -/
lemma savePricesStep_history_iff {p : PriceDict} (db : DB) (now : Nat)
    (hk : obsEffKey p ≠ "") :
    ((savePricesStep now db p).history.length = db.history.length + 1 ↔
      findRowL db.unified (obsTriple p) = none ∨
        ∃ u, findRowL db.unified (obsTriple p) = some u ∧
          (u.sell_price ≠ p.sell_price ∨ u.buy_price ≠ p.buy_price)) ∧
    ((savePricesStep now db p).history = db.history ↔
      ∃ u, findRowL db.unified (obsTriple p) = some u ∧
        u.sell_price = p.sell_price ∧ u.buy_price = p.buy_price) := by
  cases hfind : findRowL db.unified (obsTriple p) with
  | some u =>
    by_cases hch : u.sell_price ≠ p.sell_price ∨ u.buy_price ≠ p.buy_price
    · rw [savePricesStep_changed now hk hfind hch]
      refine ⟨iff_of_true (by simp) (Or.inr ⟨u, rfl, hch⟩), ?_⟩
      constructor
      · intro h
        have h' : db.history ++ [mkHistOf now u.id p] = db.history := h
        have := congrArg List.length h'
        simp at this
      · rintro ⟨u', hu', hs, hb⟩
        injection hu' with h
        subst h
        exact absurd hch (by simp [hs, hb])
    · push_neg at hch
      rw [savePricesStep_same_vals now hk hfind hch.1 hch.2]
      refine ⟨?_, iff_of_true rfl ⟨u, rfl, hch.1, hch.2⟩⟩
      constructor
      · intro h
        have h' : db.history.length = db.history.length + 1 := h
        omega
      · rintro (h | ⟨u', hu', hd⟩)
        · cases h
        · injection hu' with h
          subst h
          rcases hd with hd | hd
          · exact absurd hch.1 hd
          · exact absurd hch.2 hd
  | none =>
    rw [savePricesStep_new now hk hfind]
    refine ⟨iff_of_true (by simp) (Or.inl rfl), ?_⟩
    constructor
    · intro h
      have h' : db.history ++ [mkHistOf now db.nextId p] = db.history := h
      have := congrArg List.length h'
      simp at this
    · rintro ⟨u', hu', -⟩
      cases hu'

/-- The writer never reads the settings table: its mutation of the
snapshot table is the same whatever `Setting` rows are present. -/
lemma savePricesStep_settings_irrelevant (now : Nat) (db : DB)
    (p : PriceDict) (st : List (String × String)) :
    (savePricesStep now { db with settings := st } p).unified
      = (savePricesStep now db p).unified := by
  by_cases hk : obsEffKey p = ""
  · rw [savePricesStep_skip now _ hk, savePricesStep_skip now db hk]
  cases hfind : findRowL db.unified (obsTriple p) with
  | some u =>
    have hfind' : findRowL (DB.unified { db with settings := st })
        (obsTriple p) = some u := hfind
    by_cases hch : u.sell_price ≠ p.sell_price ∨ u.buy_price ≠ p.buy_price
    · rw [savePricesStep_changed now hk hfind hch,
        savePricesStep_changed now hk hfind' hch]
    · push_neg at hch
      rw [savePricesStep_same_vals now hk hfind hch.1 hch.2,
        savePricesStep_same_vals now hk hfind' hch.1 hch.2]
  | none =>
    have hfind' : findRowL (DB.unified { db with settings := st })
        (obsTriple p) = none := hfind
    rw [savePricesStep_new now hk hfind, savePricesStep_new now hk hfind']

/-! ## Behaviour of a whole writer batch -/

lemma saveLoop_cons (now : Nat) (db : DB) (p : PriceDict)
    (obs : List PriceDict) :
    saveLoop now db (p :: obs) = saveLoop now (savePricesStep now db p) obs :=
  rfl

/-- A batch that never touches key `k` leaves `k`'s lookup unchanged. -/
lemma saveLoop_other (now : Nat) {k : String × String × String}
    (obs : List PriceDict) :
    ∀ db : DB, (∀ q ∈ obs, obsTriple q ≠ k) →
    findRowL (saveLoop now db obs).unified k = findRowL db.unified k := by
  induction obs with
  | nil => intro db _; rfl
  | cons q obs ih =>
    intro db h
    rw [saveLoop_cons, ih _ (fun r hr => h r (List.mem_cons_of_mem _ hr)),
      savePricesStep_other now (h q (List.mem_cons_self _ _))]

/-- After a batch with pairwise-distinct keys, every processed
observation's key resolves to a row carrying that observation's prices. -/
lemma saveLoop_establishes (now : Nat) (obs : List PriceDict) :
    ∀ db : DB, obs.Pairwise (fun a b => obsTriple a ≠ obsTriple b) →
    ∀ p ∈ obs, obsEffKey p ≠ "" →
    ∃ u, findRowL (saveLoop now db obs).unified (obsTriple p) = some u ∧
      u.sell_price = p.sell_price ∧ u.buy_price = p.buy_price := by
  induction obs with
  | nil => intro db _ p hp; cases hp
  | cons q obs ih =>
    intro db hdist p hp hk
    rw [List.pairwise_cons] at hdist
    rcases List.mem_cons.mp hp with rfl | hmem
    · obtain ⟨u, hu, hs, hb⟩ := savePricesStep_establishes db now hk
      refine ⟨u, ?_, hs, hb⟩
      rw [saveLoop_cons,
        saveLoop_other now obs _ (fun r hr => Ne.symm (hdist.1 r hr))]
      exact hu
    · rw [saveLoop_cons]
      exact ih _ hdist.2 p hmem hk

/-- A batch whose observations all match rows with identical prices adds
no history row. -/
lemma saveLoop_history_stable (now : Nat) (obs : List PriceDict) :
    ∀ db : DB, obs.Pairwise (fun a b => obsTriple a ≠ obsTriple b) →
    (∀ p ∈ obs, obsEffKey p ≠ "" →
      ∃ u, findRowL db.unified (obsTriple p) = some u ∧
        u.sell_price = p.sell_price ∧ u.buy_price = p.buy_price) →
    (saveLoop now db obs).history = db.history := by
  induction obs with
  | nil => intro db _ _; rfl
  | cons q obs ih =>
    intro db hdist hvals
    rw [List.pairwise_cons] at hdist
    by_cases hk : obsEffKey q = ""
    · rw [saveLoop_cons, savePricesStep_skip now db hk]
      exact ih db hdist.2
        (fun p hp => hvals p (List.mem_cons_of_mem _ hp))
    · obtain ⟨u, hu, hs, hb⟩ := hvals q (List.mem_cons_self _ _) hk
      have hstep := savePricesStep_same_vals now hk hu hs hb
      have hhist : (savePricesStep now db q).history = db.history := by
        rw [hstep]
      rw [saveLoop_cons, ih _ hdist.2 ?_, hhist]
      intro p hp hkp
      rw [savePricesStep_other now (hdist.1 p hp)]
      exact hvals p (List.mem_cons_of_mem _ hp) hkp

/-- Every snapshot key present before a batch is still present after it:
the writer only inserts rows or updates them in place. -/
lemma saveLoop_preserves_rows (now : Nat) (obs : List PriceDict) :
    ∀ db : DB, ∀ u ∈ db.unified,
    ∃ u', u' ∈ (saveLoop now db obs).unified ∧ rowTriple u' = rowTriple u := by
  induction obs with
  | nil => intro db u hu; exact ⟨u, hu, rfl⟩
  | cons q obs ih =>
    intro db u hu
    have hstep : ∃ u₁, u₁ ∈ (savePricesStep now db q).unified ∧
        rowTriple u₁ = rowTriple u := by
      by_cases hk : obsEffKey q = ""
      · rw [savePricesStep_skip now db hk]; exact ⟨u, hu, rfl⟩
      cases hfind : findRowL db.unified (obsTriple q) with
      | some w =>
        have hmem := mem_triple_updateFirst (updRow now q)
          (fun u0 => decide (rowTriple u0 = obsTriple q))
          (rowTriple_updRow now q) hu
        by_cases hch : w.sell_price ≠ q.sell_price ∨ w.buy_price ≠ q.buy_price
        · rw [savePricesStep_changed now hk hfind hch]; exact hmem
        · push_neg at hch
          rw [savePricesStep_same_vals now hk hfind hch.1 hch.2]; exact hmem
      | none =>
        rw [savePricesStep_new now hk hfind]
        exact ⟨u, List.mem_append_left _ hu, rfl⟩
    obtain ⟨u₁, hu₁, he₁⟩ := hstep
    obtain ⟨u₂, hu₂, he₂⟩ := ih _ u₁ hu₁
    exact ⟨u₂, by rw [saveLoop_cons]; exact hu₂, he₂.trans he₁⟩

/-! ## Lemmas about the gold fallback manager -/

lemma validOf_ne_nil_iff (s : SourceRun) :
    validOf s ≠ [] ↔ ∃ p ∈ s.result, 0 < p.sell_price := by
  constructor
  · intro h
    obtain ⟨p, hp⟩ := List.exists_mem_of_ne_nil _ h
    have hm := List.mem_filter.mp hp
    exact ⟨p, hm.1, by simpa using hm.2⟩
  · rintro ⟨p, hp, hpos⟩
    exact List.ne_nil_of_mem
      (List.mem_filter.mpr ⟨hp, by simpa using hpos⟩)

lemma getLatestPricesAux_eq_spec (now : Nat) :
    ∀ (srcs : List SourceRun) (idx : Nat),
    getLatestPricesAux now idx srcs = managerSpecAux now (idx == 0) srcs := by
  intro srcs
  induction srcs with
  | nil => intro idx; rfl
  | cons s rest ih =>
    intro idx
    simp only [getLatestPricesAux, managerSpecAux]
    by_cases h : validOf s ≠ []
    · rw [if_pos h, dif_pos ((validOf_ne_nil_iff s).mp h)]
      by_cases hidx : idx = 0 <;> simp [hidx, validOf]
    · rw [if_neg h, dif_neg (fun hx => h ((validOf_ne_nil_iff s).mpr hx)),
        ih (idx + 1)]
      have hb : (idx + 1 == 0) = false := by simp
      rw [hb]

lemma getLatestPricesAux_all_invalid (now : Nat) :
    ∀ (srcs : List SourceRun) (idx : Nat),
    (∀ s ∈ srcs, validOf s = []) → getLatestPricesAux now idx srcs = [] := by
  intro srcs
  induction srcs with
  | nil => intro idx _; rfl
  | cons s rest ih =>
    intro idx h
    simp only [getLatestPricesAux]
    rw [if_neg (by simp [h s (List.mem_cons_self _ _)]),
      ih (idx + 1) (fun r hr => h r (List.mem_cons_of_mem _ hr))]

lemma getLatestPricesAux_sell_pos (now : Nat) :
    ∀ (srcs : List SourceRun) (idx : Nat) (p : PriceDict),
    p ∈ getLatestPricesAux now idx srcs → 0 < p.sell_price := by
  intro srcs
  induction srcs with
  | nil => intro idx p hp; cases hp
  | cons s rest ih =>
    intro idx p hp
    simp only [getLatestPricesAux] at hp
    by_cases h : validOf s ≠ []
    · rw [if_pos h] at hp
      obtain ⟨q, hq, rfl⟩ := List.mem_map.mp hp
      have hm := List.mem_filter.mp hq
      simpa [tagObs] using hm.2
    · rw [if_neg h] at hp
      exact ih (idx + 1) p hp

lemma getLatestPricesAux_status (now : Nat) :
    ∀ (srcs : List SourceRun) (idx i : Nat) (hi : i < srcs.length),
    (∀ j (hj : j < i), validOf (srcs.get ⟨j, Nat.lt_trans hj hi⟩) = []) →
    validOf (srcs.get ⟨i, hi⟩) ≠ [] →
    ∀ p ∈ getLatestPricesAux now idx srcs,
      p.source_status = some (if idx + i = 0 then "Primary" else "Fallback") := by
  intro srcs
  induction srcs with
  | nil => intro idx i hi; exact absurd hi (Nat.not_lt_zero i)
  | cons s rest ih =>
    intro idx i hi hbefore hwin p hp
    cases i with
    | zero =>
      have hs : validOf s ≠ [] := hwin
      simp only [getLatestPricesAux] at hp
      rw [if_pos hs] at hp
      obtain ⟨q, hq, rfl⟩ := List.mem_map.mp hp
      simp [tagObs]
    | succ i' =>
      have hempty : validOf s = [] := hbefore 0 (Nat.succ_pos i')
      simp only [getLatestPricesAux] at hp
      rw [if_neg (by simp [hempty])] at hp
      have hi' : i' < rest.length := Nat.lt_of_succ_lt_succ hi
      have hb' : ∀ j (hj : j < i'),
          validOf (rest.get ⟨j, Nat.lt_trans hj hi'⟩) = [] := by
        intro j hj
        exact hbefore (j + 1) (Nat.succ_lt_succ hj)
      have hres := ih (idx + 1) i' hi' hb' hwin p hp
      have harith : idx + 1 + i' = idx + (i' + 1) := by omega
      rw [harith] at hres
      exact hres

/-! ## Lemmas about adapter parsing -/

/-- Elements on which the partial map is `none` can be filtered away
without changing a `filterMap`. -/
lemma filterMap_eq_filterMap_filter {α β : Type} (f : α → Option β)
    (p : α → Bool) (h : ∀ a, p a = false → f a = none) :
    ∀ l : List α, l.filterMap f = (l.filter p).filterMap f := by
  intro l
  induction l with
  | nil => rfl
  | cons a l ih =>
    rw [List.filter_cons]
    by_cases hpa : p a = true
    · rw [if_pos hpa, List.filterMap_cons, List.filterMap_cons, ih]
    · have hna : f a = none := h a (by simpa using hpa)
      rw [if_neg (by simpa using hpa), List.filterMap_cons, hna, ih]

lemma egyptGoldParse_sell_band (rows : List AdapterRow) :
    ∀ q ∈ egyptGoldParse rows, 500 < q.sell_price := by
  intro q hq
  obtain ⟨r, _, he⟩ := List.mem_filterMap.mp hq
  unfold egyptRowObs at he
  by_cases hc : r.karat ≠ "" ∧ (500 : ℚ) < r.v1
  · rw [if_pos hc] at he
    injection he with he
    subst he
    exact lt_of_lt_of_le hc.2 (le_max_left _ _)
  · rw [if_neg hc] at he
    cases he

/-! ## Lemmas about the currency manager -/

lemma bankRatesAux_congr (bank : String)
    (f g : String → String → List RateDict) (headId : Option String)
    (h : ∀ sid, f sid bank = g sid bank) :
    ∀ l : List String,
    bankRatesAux f bank headId l = bankRatesAux g bank headId l := by
  intro l
  induction l with
  | nil => rfl
  | cons sid rest ih =>
    simp only [bankRatesAux]
    rw [h sid, ih]

/-! ## Lemmas about the read endpoint and the resolver -/

/-- Every branch of the response assembly reports the row's key. -/
lemma readEntry_karat (db : DB) (off : ℚ) (u : UnifiedPrice) :
    (readEntry db off u).karat = u.key := by
  unfold readEntry
  rcases getSetting db ("manual_price_" ++ u.key) with _ | v
  · rfl
  · dsimp only
    by_cases hv : v ≠ ""
    · rw [if_pos hv]
      rcases pyFloat v with _ | m <;> rfl
    · rw [if_neg hv]

/-- A present, non-empty, parseable override determines the response row. -/
lemma readEntry_manual {db : DB} {u : UnifiedPrice} {v : String} {m : ℚ}
    (off : ℚ) (hset : getSetting db ("manual_price_" ++ u.key) = some v)
    (hv : v ≠ "") (hm : pyFloat v = some m) :
    readEntry db off u =
      { karat := u.key, sell_price := m, buy_price := m,
        source_status := "Manual" } := by
  unfold readEntry
  rw [hset]
  dsimp only
  rw [if_pos hv, hm]

/-- Every name the resolver returns is a registered adapter, and every
registered adapter occurs in what it returns. -/
lemma resolver_mem (s : String) (hs : s ≠ "") :
    (∀ n ∈ getOrderedSources false (some s), n ∈ goldDefaultOrder) ∧
    (∀ d ∈ goldDefaultOrder, d ∈ getOrderedSources false (some s)) := by
  have hres : getOrderedSources false (some s)
      = resolverPick s ++
        goldDefaultOrder.filter (fun n => decide (n ∉ resolverPick s)) := by
    simp [getOrderedSources, hs]
  rw [hres]
  constructor
  · intro n hn
    rcases List.mem_append.mp hn with hpick | hmiss
    · have := List.mem_filter.mp hpick
      simpa using this.2
    · exact (List.mem_filter.mp hmiss).1
  · intro d hd
    by_cases hdp : d ∈ resolverPick s
    · exact List.mem_append_left _ hdp
    · exact List.mem_append_right _
        (List.mem_filter.mpr ⟨hd, by simpa using hdp⟩)

/-! ## Claim theorems -/

/-- C1, counterexample: with the `manual_price_21` override active in the
settings and the snapshot row still at the override value 4500/`Manual`,
one writer step for a scraped karat-21 observation (4600/4550, `Primary`)
does mutate the snapshot row: the stored prices become the scraped ones
and the status leaves `Manual`. The scraped observation is stored, not
dropped — the writer has no override exclusion. -/
theorem writer_ignores_manual_override_cex :
    getSetting ovDB "manual_price_21" = some "4500" ∧
    (findRowL ovDB.unified ("gold", "egypt", "21")).map
        (fun u => (u.sell_price, u.buy_price, u.source_status))
      = some (4500, 4500, "Manual") ∧
    (findRowL (savePricesStep 1 ovDB ovObs).unified
        ("gold", "egypt", "21")).map
        (fun u => (u.sell_price, u.buy_price, u.source_status))
      = some (4600, 4550, "Primary") ∧
    (savePricesStep 1 ovDB ovObs).unified ≠ ovDB.unified := by
  decide

/-- C1, amended: the Writer does not exclude overridden keys — its
snapshot mutation is independent of the settings table, so an automated
commit overwrites the stored row with the scraped values. Manual
override precedence holds on the read side instead: while a non-empty,
parseable `manual_price_<key>` Setting row exists, `read_current_prices`
reports `sell = buy = override` and status `Manual` for that key,
whatever the stored snapshot row says. -/
theorem manual_override_read_overlay (db : DB) (now : Nat) (p : PriceDict)
    (st : List (String × String)) (k v : String) (m : ℚ)
    (out : List GoldOut)
    (hset : getSetting db ("manual_price_" ++ k) = some v)
    (hv : v ≠ "") (hm : pyFloat v = some m)
    (hok : readCurrentPrices db = Except.ok out) :
    (∀ e ∈ out, e.karat = k →
      e.sell_price = m ∧ e.buy_price = m ∧ e.source_status = "Manual") ∧
    (savePricesStep now { db with settings := st } p).unified
      = (savePricesStep now db p).unified := by
  refine ⟨?_, savePricesStep_settings_irrelevant now db p st⟩
  intro e he hek
  unfold readCurrentPrices at hok
  by_cases hrows : goldRows db = []
  · rw [if_pos hrows] at hok
    injection hok with hout
    subst hout
    cases he
  · rw [if_neg hrows] at hok
    cases hoff : pyFloat (offsetRaw db) with
    | none => rw [hoff] at hok; cases hok
    | some off =>
      rw [hoff] at hok
      injection hok with hout
      subst hout
      obtain ⟨u, hu, rfl⟩ := List.mem_map.mp he
      have hk : u.key = k := by rw [← readEntry_karat db off u, hek]
      have hset' : getSetting db ("manual_price_" ++ u.key) = some v := by
        rw [hk]; exact hset
      rw [readEntry_manual off hset' hv hm]
      exact ⟨rfl, rfl, rfl⟩

/-- C1, witness: in the store left by the counterexample's automated
commit (snapshot row 4600/4550/`Primary`, override setting still
present), the read endpoint's karat-21 row still reports 4500/`Manual`. -/
theorem manual_override_read_overlay_witness :
    (⟨"21", 4500, 4500, "Manual"⟩ : GoldOut).sell_price = 4500 ∧
    (⟨"21", 4500, 4500, "Manual"⟩ : GoldOut).buy_price = 4500 ∧
    (⟨"21", 4500, 4500, "Manual"⟩ : GoldOut).source_status = "Manual" :=
  (manual_override_read_overlay (savePricesStep 1 ovDB ovObs) 2 ovObs []
      "21" "4500" 4500 [⟨"21", 4500, 4500, "Manual"⟩]
      (by decide) (by decide) (by decide) rfl).1
    ⟨"21", 4500, 4500, "Manual"⟩ (by decide) rfl

/-- C2: a writer step on an observation with a non-empty key appends a
history row exactly when the key has no snapshot row or the stored
prices differ; with identical prices the history is untouched; and a
batch with pairwise-distinct keys committed twice leaves the history of
the first commit unchanged. -/
theorem history_on_change_only (now now2 : Nat) (db : DB) (p : PriceDict)
    (s : Session) (obs : List PriceDict)
    (hk : obsEffKey p ≠ "") (hdist : (obs.map obsTriple).Nodup) :
    ((savePricesStep now db p).history.length = db.history.length + 1 ↔
      findRowL db.unified (obsTriple p) = none ∨
        ∃ u, findRowL db.unified (obsTriple p) = some u ∧
          (u.sell_price ≠ p.sell_price ∨ u.buy_price ≠ p.buy_price)) ∧
    ((savePricesStep now db p).history = db.history ↔
      ∃ u, findRowL db.unified (obsTriple p) = some u ∧
        u.sell_price = p.sell_price ∧ u.buy_price = p.buy_price) ∧
    (save_prices_to_db now2 (save_prices_to_db now s obs) obs).durable.history
      = (save_prices_to_db now s obs).durable.history := by
  obtain ⟨h1, h2⟩ := savePricesStep_history_iff db now hk
  refine ⟨h1, h2, ?_⟩
  by_cases hobs : obs = []
  · simp [save_prices_to_db, hobs]
  · have hpair : obs.Pairwise (fun a b => obsTriple a ≠ obsTriple b) :=
      List.pairwise_map.mp hdist
    simp only [save_prices_to_db, if_neg hobs]
    exact saveLoop_history_stable now2 obs _ hpair
      (fun q hq hkq => saveLoop_establishes now obs s.mem hpair q hq hkq)

/-- C2, witness: committing the karat-21/18 batch twice adds no second
history entry. -/
theorem history_on_change_only_witness :
    (save_prices_to_db 2 (save_prices_to_db 1 emptySession twoObsBatch)
        twoObsBatch).durable.history
      = (save_prices_to_db 1 emptySession twoObsBatch).durable.history :=
  (history_on_change_only 1 2 emptyDB obs21 emptySession twoObsBatch
    (by decide) (by decide)).2.2

/-- C3: the gold manager's loop equals the spec's first-success fallback
(accept the first adapter with at least one sell-positive observation,
never a later one); when every adapter's valid result is empty it
returns the empty list, and then the scheduler tick does not invoke the
writer. -/
theorem fallback_first_success (now : Nat) (srcs : List SourceRun)
    (s : Session) :
    getLatestPrices now srcs = managerSpec now srcs ∧
    ((∀ r ∈ srcs, validOf r = []) → getLatestPrices now srcs = []) ∧
    (getLatestPrices now srcs = [] → runGoldCycle now s srcs = s) := by
  refine ⟨getLatestPricesAux_eq_spec now srcs 0, ?_, ?_⟩
  · intro h
    exact getLatestPricesAux_all_invalid now srcs 0 h
  · intro h
    simp [runGoldCycle, h]

/-- C3, witness: with one adapter whose only observation has sell 0, the
manager returns nothing and the cycle leaves the session untouched. -/
theorem fallback_first_success_witness :
    getLatestPrices 0 [invalidRun] = [] ∧
    runGoldCycle 0 emptySession [invalidRun] = emptySession :=
  ⟨(fallback_first_success 0 [invalidRun] emptySession).2.1 (by decide),
   (fallback_first_success 0 [invalidRun] emptySession).2.2 (by decide)⟩

/-- C4: for every persisted gold source order (absent, empty, unknown
names, or unreadable) the resolver returns a non-empty list of
registered adapter names containing every registered adapter; on a read
error, and for an absent or empty setting, it is exactly the default
order. -/
theorem resolver_total (e : Bool) (v : Option String) :
    getOrderedSources e v ≠ [] ∧
    (∀ n ∈ getOrderedSources e v, n ∈ goldDefaultOrder) ∧
    (∀ d ∈ goldDefaultOrder, d ∈ getOrderedSources e v) ∧
    (e = true → getOrderedSources e v = goldDefaultOrder) ∧
    (e = false → v = none → getOrderedSources e v = goldDefaultOrder) ∧
    (e = false → v = some "" → getOrderedSources e v = goldDefaultOrder) := by
  cases e with
  | true =>
    have hg : getOrderedSources true v = goldDefaultOrder := rfl
    exact ⟨by rw [hg]; decide, by rw [hg]; decide, by rw [hg]; decide,
      fun _ => hg, fun h _ => Bool.noConfusion h, fun h _ => Bool.noConfusion h⟩
  | false =>
    cases v with
    | none =>
      have hg : getOrderedSources false none = goldDefaultOrder := rfl
      exact ⟨by rw [hg]; decide, by rw [hg]; decide, by rw [hg]; decide,
        fun h => Bool.noConfusion h, fun _ _ => hg,
        fun _ h => Option.noConfusion h⟩
    | some sv =>
      by_cases hs : sv = ""
      · subst hs
        have hg : getOrderedSources false (some "") = goldDefaultOrder := by
          simp [getOrderedSources]
        exact ⟨by rw [hg]; decide, by rw [hg]; decide, by rw [hg]; decide,
          fun h => Bool.noConfusion h, fun _ h => Option.noConfusion h,
          fun _ _ => hg⟩
      · obtain ⟨hsub, hall⟩ := resolver_mem sv hs
        refine ⟨List.ne_nil_of_mem (hall "GoldEra" (by decide)), hsub, hall,
          fun h => Bool.noConfusion h, fun _ h => Option.noConfusion h,
          fun _ h => ?_⟩
        injection h with h
        exact absurd h hs

/-- C4, witness: an order naming one valid adapter and one unknown name
resolves with the unknown skipped and all five adapters present. -/
theorem resolver_total_witness :
    getOrderedSources false (some "SouqPriceToday, Bogus") ≠ [] ∧
    "GoldEra" ∈ getOrderedSources false (some "SouqPriceToday, Bogus") :=
  ⟨(resolver_total false (some "SouqPriceToday, Bogus")).1,
   (resolver_total false (some "SouqPriceToday, Bogus")).2.2.1 "GoldEra"
     (by decide)⟩

/-- C5: the writer commits a batch atomically — a run interrupted before
the single final commit leaves the durable store exactly as before, and
a successful run makes the whole batch's effect durable at once. -/
theorem writer_batch_atomic (now : Nat) (s : Session) (obs : List PriceDict)
    (k : Nat) (hne : obs ≠ []) :
    (savePricesInterrupted now s obs k).durable = s.durable ∧
    (save_prices_to_db now s obs).durable = saveLoop now s.mem obs ∧
    (save_prices_to_db now s obs).mem = (save_prices_to_db now s obs).durable := by
  refine ⟨rfl, ?_, ?_⟩ <;> simp [save_prices_to_db, hne]

/-- C5, witness: interrupting the two-observation batch after one
observation leaves the durable store unchanged. -/
theorem writer_batch_atomic_witness :
    (savePricesInterrupted 1 emptySession twoObsBatch 1).durable
      = emptySession.durable :=
  (writer_batch_atomic 1 emptySession twoObsBatch 1 (by decide)).1

/-- C6, counterexample: `EgyptGoldPriceTodaySource.fetch_prices` converts
a failure to an empty result but does not retain the error string —
`last_error` stays unset, contradicting the claim for this adapter. -/
theorem adapter_error_retention_cex :
    (egyptGoldFetch (Except.error "timeout") ⟨none⟩).1 = [] ∧
    (egyptGoldFetch (Except.error "timeout") ⟨none⟩).2.last_error
      ≠ some "timeout" := by
  decide

/-- C6, amended: every gold adapter converts a fetch/parse failure into
an empty result instead of raising; GoldEra, Isagha and GoldBullion
additionally retain the error string in `last_error`, while
EgyptGoldPriceToday, SouqPriceToday and GoldPriceLive only log it and
leave `last_error` untouched. -/
theorem adapter_error_to_empty (e : String) (st : SourceSt) :
    goldEraFetch (Except.error e) st = ([], ⟨some e⟩) ∧
    isaghaFetch (Except.error e) st = ([], ⟨some e⟩) ∧
    goldBullionFetch (Except.error e) st = ([], ⟨some e⟩) ∧
    egyptGoldFetch (Except.error e) st = ([], st) ∧
    souqFetch (Except.error e) st = ([], st) ∧
    goldPriceLiveFetch (Except.error e) st = ([], st) :=
  ⟨rfl, rfl, rfl, rfl, rfl, rfl⟩

/-- C7: the EgyptGoldPriceToday adapter drops every parsed row whose sell
value is outside the sanity band (≤ 500) while keeping the other rows of
the same table, every observation it emits has sell above the band, and
every observation the manager hands to the writer has sell > 0. -/
theorem band_validation (now : Nat) (rows : List AdapterRow)
    (srcs : List SourceRun) (p : PriceDict)
    (hp : p ∈ getLatestPrices now srcs) :
    egyptGoldParse rows
      = egyptGoldParse (rows.filter (fun r => decide (500 < r.v1))) ∧
    (∀ q ∈ egyptGoldParse rows, 500 < q.sell_price) ∧
    0 < p.sell_price := by
  refine ⟨?_, egyptGoldParse_sell_band rows,
    getLatestPricesAux_sell_pos now srcs 0 p hp⟩
  refine filterMap_eq_filterMap_filter egyptRowObs _ ?_ rows
  intro r hr
  unfold egyptRowObs
  rw [if_neg]
  rintro ⟨-, hlt⟩
  exact absurd hlt (by simpa using hr)

/-- C7, witness: in a table holding a sell-3 row and a sell-5000 row, the
band filter drops only the former, and the surviving observation the
manager forwards is sell-positive. -/
theorem band_validation_witness :
    egyptGoldParse bandRows
      = egyptGoldParse (bandRows.filter (fun r => decide (500 < r.v1))) ∧
    0 < (tagObs "Primary" 3
      (obsOf "EgyptGoldPriceToday" "24" 5000 4900)).sell_price :=
  ⟨(band_validation 3 bandRows [bandRun]
      (tagObs "Primary" 3 (obsOf "EgyptGoldPriceToday" "24" 5000 4900))
      (by decide)).1,
   (band_validation 3 bandRows [bandRun]
      (tagObs "Primary" 3 (obsOf "EgyptGoldPriceToday" "24" 5000 4900))
      (by decide)).2.2⟩

/-- C8, counterexample: a tick of the full-bank cycle with non-empty
results deletes every pre-existing `BankCurrencyRate` row — an automated
cycle does delete snapshot rows of the bank-aggregate domain. -/
theorem bank_rows_deleted_cex :
    hsbcRow ∈ bankDB.bankRates ∧
    hsbcRow ∉ (fullBankCycleApply 3 bankDB [cibResult]).bankRates := by
  decide

/-- C8, amended: the Writer never deletes `UnifiedPrice` latest-snapshot
rows — every key present before a batch is still present after it — but
the full-bank aggregate cycle replaces the whole `BankCurrencyRate`
table (delete-all plus reinsert) on every successful tick, and leaves it
untouched only when the scrape returned nothing. -/
theorem unified_preserved_bank_replaced (now : Nat) (db : DB)
    (obs : List PriceDict) (results : List BankRateDict) (u : UnifiedPrice)
    (hu : u ∈ db.unified) (hres : results ≠ []) :
    (∃ u', u' ∈ (saveLoop now db obs).unified ∧ rowTriple u' = rowTriple u) ∧
    (fullBankCycleApply now db results).bankRates
      = results.map (mkBankRow now) ∧
    fullBankCycleApply now db [] = db := by
  refine ⟨saveLoop_preserves_rows now obs db u hu, ?_, rfl⟩
  simp [fullBankCycleApply, hres]

/-- C8, witness: after a batch over the override store, the karat-21 row
is still present, and the bank table after a successful tick is exactly
the reinserted scrape. -/
theorem unified_preserved_bank_replaced_witness :
    (fullBankCycleApply 3 bankDB [cibResult]).bankRates
      = [cibResult].map (mkBankRow 3) :=
  (unified_preserved_bank_replaced 3 bankDB twoObsBatch [cibResult] ovRow
    (by decide) (by decide)).2.1

/-- C9: when the adapters before index `i` all fail and adapter `i`
succeeds, every observation the manager returns is tagged `Primary`
exactly when `i = 0` and `Fallback` otherwise; in the A-empty/B-succeeds
scenario the committed snapshot carries source B, status `Fallback`, the
scraped prices, and exactly one history entry. -/
theorem primary_fallback_tagging (now : Nat) (srcs : List SourceRun)
    (i : Nat) (hi : i < srcs.length)
    (hbefore : ∀ j (hj : j < i),
      validOf (srcs.get ⟨j, Nat.lt_trans hj hi⟩) = [])
    (hwin : validOf (srcs.get ⟨i, hi⟩) ≠ []) :
    (∀ p ∈ getLatestPrices now srcs,
      p.source_status = some (if i = 0 then "Primary" else "Fallback")) ∧
    (getLatestPrices 7 scenarioSources).map
        (fun p => (p.source, p.source_status))
      = [(some "B", some "Fallback")] ∧
    ((save_prices_to_db 7 emptySession
        (getLatestPrices 7 scenarioSources)).durable.unified.map
        (fun u => (rowTriple u, u.sell_price, u.buy_price, u.source_name,
          u.source_status))
      = [(("gold", "egypt", "21"), 4500, 4450, some "B", "Fallback")]) ∧
    (save_prices_to_db 7 emptySession
        (getLatestPrices 7 scenarioSources)).durable.history.length = 1 := by
  refine ⟨?_, by decide, by decide, by decide⟩
  intro p hp
  have h := getLatestPricesAux_status now srcs 0 i hi hbefore hwin p hp
  rw [Nat.zero_add] at h
  exact h

/-- C9, witness: the scenario instantiated — A at priority 1 empty, B at
priority 2 wins — reports source B with status `Fallback`. -/
theorem primary_fallback_tagging_witness :
    (getLatestPrices 7 scenarioSources).map
        (fun p => (p.source, p.source_status))
      = [(some "B", some "Fallback")] :=
  (primary_fallback_tagging 7 scenarioSources 1 (by decide)
    (fun j hj => by
      have hj0 : j = 0 := Nat.lt_one_iff.mp hj
      subst hj0
      show validOf runA = []
      decide)
    (by decide)).2.1

/-- C10: the currency manager runs the first-success fallback once per
bank — each bank's winner depends only on that bank's fetch outcomes —
and the combined cycle output is the concatenation of the two per-bank
passes; in the mixing scenario the one cycle carries rates from two
different sources, one `Primary` and one `Fallback`. -/
theorem currency_per_bank_fallback (enabled : List String)
    (f g : String → String → List RateDict) (bank : String)
    (hfg : ∀ sid, f sid bank = g sid bank) :
    bankRatesFor enabled f bank = bankRatesFor enabled g bank ∧
    getLatestRates enabled f
      = bankRatesFor enabled f "nbe" ++ bankRatesFor enabled f "bdc" ∧
    (getLatestRates currencyKnownIds mixFetch).map
        (fun r => (r.source, r.source_status))
      = [("Ta3weem_nbe", some "Primary"), ("Egrates_bdc", some "Fallback")] :=
  ⟨bankRatesAux_congr bank f g enabled.head? hfg enabled, rfl, by decide⟩

/-- C10, witness: the independence applied to the mixing scenario's fetch
outcomes, and the mixed-status combined output. -/
theorem currency_per_bank_fallback_witness :
    (getLatestRates currencyKnownIds mixFetch).map
        (fun r => (r.source, r.source_status))
      = [("Ta3weem_nbe", some "Primary"), ("Egrates_bdc", some "Fallback")] :=
  (currency_per_bank_fallback currencyKnownIds mixFetch mixFetch "nbe"
    (fun _ => rfl)).2.2

end Werete
